import Mathlib

/-!
Verification of the movie-recommendation-system repository
(`src/data_loader.py` and `src/api_client.py`) via a shallow embedding.

Conventions of the embedding:
* pandas DataFrames of ratings become `List (Row α)`;
* the HTTP transport becomes a function `Nat → Outcome α` giving the result
  of each successive `requests.get` attempt (`.exn` models a raised
  `requests.RequestException`); parsed JSON bodies are an abstract type `α`;
  `Outcome` carries the `Retry-After` header pre-parsed as `Option Nat`,
  which is adequate for the scenarios whose hypotheses fix an integer (or
  absent) header; the refined `OutcomeH`/`handle_requestH` model carries the
  raw header string instead, exposing the `int()`/`time.sleep` error paths
  of the 429 branch that the pre-parsed view cannot represent;
* `time.sleep d` is recorded in a `sleeps` log, `logger` calls are not modelled;
* Python dicts become association lists with insert-or-overwrite semantics
  that preserve insertion order, as CPython dicts do;
* `functools.lru_cache(maxsize=500)` becomes an explicit most-recent-first
  association list of capacity 500 threaded through `search_movie`;
  network (cache-miss) activity is counted in `netCount`.
-/

namespace MovieRec

/-! ### data_loader.py -/

/-- One row of the MovieLens ratings table.  The fields other than
`userId` and `movieId` (rating value, timestamp, ...) are irrelevant to the
filters and are collapsed into one abstract payload field `rest`. -/
structure Row (α : Type) where
  userId : Nat
  movieId : Nat
  rest : α
  deriving DecidableEq, Repr

/-- The count `ratings['movieId'].value_counts()[m]`: how many rows of `rs` rate movie `m`. -/
def movieCount {α : Type} (rs : List (Row α)) (m : Nat) : Nat :=
  rs.countP (fun r => r.movieId == m)

/-- The count `ratings['userId'].value_counts()[u]`: how many rows of `rs` are by user `u`. -/
def userCount {α : Type} (rs : List (Row α)) (u : Nat) : Nat :=
  rs.countP (fun r => r.userId == u)

/-- The function `clean_data(ratings, min_ratings, min_users)` from `data_loader.py`:
keep rows whose movie has at least `min_ratings` rows in the input, then —
on the result of that first filter — keep rows whose user has at least
`min_users` rows. -/
def clean_data {α : Type} (ratings : List (Row α)) (min_ratings : Nat := 10)
    (min_users : Nat := 10) : List (Row α) :=
  let step1 := ratings.filter (fun r => min_ratings ≤ movieCount ratings r.movieId)
  step1.filter (fun r => min_users ≤ userCount step1 r.userId)

/-! ### api_client.py : `_handle_request` -/

/-- Result of one `requests.get` attempt: either a raised
`requests.RequestException` (`exn`) or a response carrying an HTTP status
code, an optional `Retry-After` header *pre-parsed* to a `Nat`, and a
parsed JSON body.  This coarse view is faithful only while the header is
an (absent or) non-negative integer; `OutcomeH` below keeps the raw header
string and also represents the malformed-header cases. -/
inductive Outcome (α : Type) where
  | exn : Outcome α
  | resp (status : Nat) (retryAfter : Option Nat) (body : α) : Outcome α
  deriving DecidableEq

/-- Result of one `requests.get` attempt with the `Retry-After` header kept
as the raw string `response.headers.get("Retry-After")` returns. -/
inductive OutcomeH (α : Type) where
  | exn : OutcomeH α
  | resp (status : Nat) (retryAfterHeader : Option String) (body : α) : OutcomeH α
  deriving DecidableEq

/-- How a Python call ends: a returned value, or an exception that
propagates to the caller uncaught. -/
inductive PyReturn (α : Type) where
  | value : Option α → PyReturn α
  | raised : PyReturn α
  deriving DecidableEq

/-- Observable outcome of a `_handle_request` call: the returned value
(`none` models Python `None`), the number of `requests.get` attempts
issued, and the log of `time.sleep` durations. -/
structure RunResult (α : Type) where
  result : Option α
  attempts : Nat
  sleeps : List Nat
  deriving DecidableEq

def RETRIES : Nat := 3
def WAIT_TIME : Nat := 1

/-- The `for attempt in range(RETRIES)` loop of `_handle_request`.
`fuel` is the number of loop iterations left, `att` the number of attempts
already made, `sl` the sleep log so far.  Falling out of the loop returns
`None` ("Exceeded max retries"). -/
def handleLoop {α : Type} (transport : Nat → Outcome α) :
    Nat → Nat → List Nat → RunResult α
  | 0, att, sl => ⟨none, att, sl⟩
  | fuel + 1, att, sl =>
    match transport att with
    | .exn => handleLoop transport fuel (att + 1) (sl ++ [WAIT_TIME])
    | .resp status ra b =>
      if status = 429 then
        handleLoop transport fuel (att + 1) (sl ++ [ra.getD 1])
      else if status = 200 then
        ⟨some b, att + 1, sl⟩
      else
        ⟨none, att + 1, sl⟩

/-- The function `_handle_request` from `api_client.py`, abstracting the URL and params:
run the retry loop over the transport with `RETRIES` iterations. -/
def handle_request {α : Type} (transport : Nat → Outcome α) : RunResult α :=
  handleLoop transport RETRIES 0 []

/-- Observable outcome of a `_handle_request` call in the refined model:
how the call ends (returned value or propagated exception), the number of
`requests.get` attempts issued, and the `time.sleep` log. -/
structure RunResultH (α : Type) where
  ret : PyReturn α
  attempts : Nat
  sleeps : List Nat
  deriving DecidableEq

/-- The natural number denoted by a list of decimal digit characters. -/
def digitsToNat (ds : List Char) : Nat :=
  ds.foldl (fun n c => 10 * n + (c.toNat - ('0').toNat)) 0

/-- Python `int(s)` on a string, in the fragment relevant to headers: strip
surrounding spaces, allow one optional sign, then require at least one
decimal digit and nothing else.  `none` models a raised `ValueError`. -/
def parsePyInt (s : String) : Option Int :=
  match ((s.data.dropWhile (fun c => c = ' ')).reverse.dropWhile
      (fun c => c = ' ')).reverse with
  | [] => none
  | '+' :: ds =>
    if ds ≠ [] ∧ ds.all (fun c => c.isDigit) then some (digitsToNat ds) else none
  | '-' :: ds =>
    if ds ≠ [] ∧ ds.all (fun c => c.isDigit) then some (-(digitsToNat ds : Int))
    else none
  | ds => if ds.all (fun c => c.isDigit) then some (digitsToNat ds) else none

/-- The retry loop of `_handle_request` over the raw-header transport.  The
429 branch runs `int(response.headers.get("Retry-After", 1))` and then
`time.sleep(retry_after)`; the surrounding `except` clause catches only
`requests.RequestException`, so a `ValueError` from `int` (non-integer
header) or from `time.sleep` (negative duration) propagates uncaught. -/
def handleLoopH {α : Type} (transport : Nat → OutcomeH α) :
    Nat → Nat → List Nat → RunResultH α
  | 0, att, sl => ⟨.value none, att, sl⟩
  | fuel + 1, att, sl =>
    match transport att with
    | .exn => handleLoopH transport fuel (att + 1) (sl ++ [WAIT_TIME])
    | .resp status hdr b =>
      if status = 429 then
        match hdr with
        | none => handleLoopH transport fuel (att + 1) (sl ++ [1])
        | some hstr =>
          match parsePyInt hstr with
          | none => ⟨.raised, att + 1, sl⟩
          | some n =>
            if n < 0 then ⟨.raised, att + 1, sl⟩
            else handleLoopH transport fuel (att + 1) (sl ++ [n.toNat])
      else if status = 200 then ⟨.value (some b), att + 1, sl⟩
      else ⟨.value none, att + 1, sl⟩

/-- `_handle_request` over the raw-header transport. -/
def handle_requestH {α : Type} (transport : Nat → OutcomeH α) : RunResultH α :=
  handleLoopH transport RETRIES 0 []

/-! ### api_client.py : the `params` dict (`params["api_key"] = TMDB_API_KEY`) -/

/-- Python `d[k] = v` on a dict modelled as an insertion-ordered association
list: overwrite the value in place if the key is present, else append. -/
def dictSet {κ ν : Type} [DecidableEq κ] : List (κ × ν) → κ → ν → List (κ × ν)
  | [], k, v => [(k, v)]
  | p :: d, k, v => if p.1 = k then (k, v) :: d else p :: dictSet d k v

/-- Python `d.get(k)` / `k in d` combined: the value stored at `k`, if any. -/
def dictGet {κ ν : Type} [DecidableEq κ] (d : List (κ × ν)) (k : κ) : Option ν :=
  (d.find? (fun p => p.1 == k)).map (fun p => p.2)

/-- Lines 30–32 of `_handle_request`: replace a `None` params with a fresh
dict, then store the API key under `"api_key"`.  The returned dict is the
(mutated) dict the caller passed when `params` was not `None`. -/
def handleRequestParams (apiKey : String) (params : Option (List (String × String))) :
    List (String × String) :=
  dictSet (params.getD []) "api_key" apiKey

/-! ### api_client.py : `search_movie` and its `lru_cache(maxsize=500)` -/

/-- The `maxsize=500` of the `functools.lru_cache` decorator on `search_movie`. -/
def CACHE_SIZE : Nat := 500

/-- Process-wide state of the memoized `search_movie`: the LRU cache as a
most-recently-used-first association list from titles to candidate-id
lists, plus a counter of network requests issued so far. -/
structure SearchState where
  cache : List (String × List Nat)
  netCount : Nat
  deriving DecidableEq

/-- The memoized `search_movie(title)` under `lru_cache(maxsize=500)`.  `net n title`
is the un-memoized body `(_handle_request(...) or {}).get("results", [])`
abstracted as the list of candidate TMDB ids the `n`-th network request
would return (a failed request yields `[]`, which is cached like any other
value).  A cache hit returns the cached list and refreshes the entry's
recency; a miss issues the network request, inserts the result at the
front and evicts the least recently used entry when the cache would
exceed `CACHE_SIZE`. -/
def search_movie (net : Nat → String → List Nat) (title : String)
    (s : SearchState) : List Nat × SearchState :=
  match s.cache.find? (fun p => p.1 == title) with
  | some p =>
    (p.2, ⟨(title, p.2) :: s.cache.eraseP (fun q => q.1 == title), s.netCount⟩)
  | none =>
    let r := net s.netCount title
    let c := (title, r) :: s.cache
    (r, ⟨if CACHE_SIZE < c.length then c.dropLast else c, s.netCount + 1⟩)

/-- A sequence of `search_movie` calls, keeping only the final state. -/
def runSearches (net : Nat → String → List Nat) (ts : List String)
    (s : SearchState) : SearchState :=
  ts.foldl (fun s t => (search_movie net t s).2) s

/-! ### api_client.py : `map_movielens_to_tmdb` -/

/-- The characters before the first occurrence of the two-character
sequence `" ("` (all of them when it does not occur). -/
def stripChars : List Char → List Char
  | [] => []
  | ' ' :: '(' :: _ => []
  | c :: cs => c :: stripChars cs

/-- The Python `row["title"].split(" (")[0]`: the title truncated at the first
`" ("` substring (the whole title when `" ("` does not occur). -/
def stripTitle (s : String) : String := String.mk (stripChars s.data)

/-- The body of the `for _, row in movies_df.iterrows()` loop: look the
stripped title up via the memoized `search_movie`; if the candidate list is
non-empty, store the first candidate's id under the row's `movieId`
(`mapping[movie_id] = results[0]["id"]`), else leave the mapping unchanged.
The `time.sleep(0.25)` throttle has no observable effect and is not
modelled. -/
def mapStep (net : Nat → String → List Nat)
    (acc : List (Nat × Nat) × SearchState) (row : Nat × String) :
    List (Nat × Nat) × SearchState :=
  let res := search_movie net (stripTitle row.2) acc.2
  (if res.1.isEmpty then acc.1 else dictSet acc.1 row.1 (res.1.headD 0), res.2)

/-- The function `map_movielens_to_tmdb(movies_df)`.  `cacheFile` is the parsed content
of `data/processed/movieId_tmdbId_map.json` when that file exists (`none`
when it does not); `rows` are the `(movieId, title)` pairs of `movies_df`.
When the cache file exists, its contents are returned verbatim with no
search; otherwise the mapping is built row by row.  (The final write of the
mapping back to the cache file is a side effect with no bearing on the
returned value and is not modelled.) -/
def map_movielens_to_tmdb (cacheFile : Option (List (Nat × Nat)))
    (net : Nat → String → List Nat) (rows : List (Nat × String))
    (s : SearchState) : List (Nat × Nat) × SearchState :=
  match cacheFile with
  | some m => (m, s)
  | none => rows.foldl (mapStep net) ([], s)

/-! ### Invariants used for the `search_movie` memoization proofs -/

/-- The entry `(t, r)` is in cache `c`, no earlier entry has key `t`
(so a lookup of `t` hits exactly this entry), and its distance from the
front is at most `k`. -/
def CacheInv (t : String) (r : List Nat) (k : Nat)
    (c : List (String × List Nat)) : Prop :=
  ∃ pre post, c = pre ++ (t, r) :: post ∧ (∀ p ∈ pre, p.1 ≠ t) ∧ pre.length ≤ k

/-- Every cached value is what the (title-determined) network function `f`
returns for its key. -/
def CacheConsistent (f : String → List Nat) (s : SearchState) : Prop :=
  ∀ p ∈ s.cache, p.2 = f p.1

/-! ### Concrete inputs used in counterexamples and witnesses -/

/-- A ratings table: movie 1 rated once each by users 1..10, and movie 2
rated ten times by user 1. -/
def rsC1 : List (Row Nat) :=
  ((List.range 10).map (fun u => ⟨u + 1, 1, 0⟩)) ++ List.replicate 10 ⟨1, 2, 0⟩

/-- A network behaviour whose `n`-th request returns the candidate list
`[n]`, so repeated physical requests are observably different. -/
def netC8 : Nat → String → List Nat := fun n _ => [n]

/-- The `i`-th filler title: `i` repetitions of the letter `b`.  These are
pairwise distinct and none of them equals `"a"`. -/
def mkTitle (i : Nat) : String := String.mk (List.replicate i 'b')

/-- A list of `CACHE_SIZE` pairwise-distinct titles, none of them `"a"`. -/
def titlesC8 : List String := (List.range CACHE_SIZE).map mkTitle

/-- The cache contents after querying `"a"` and then the first `n` filler
titles (most recent first): filler `i` was the `(i+1)`-th network request. -/
def preCache (n : Nat) : List (String × List Nat) :=
  ((List.range n).reverse.map (fun i => (mkTitle i, [i + 1]))) ++ [("a", [0])]

/-- The cache after all `CACHE_SIZE` filler titles: `"a"` has been evicted. -/
def bCache : List (String × List Nat) :=
  (List.range CACHE_SIZE).reverse.map (fun i => (mkTitle i, [i + 1]))

/-- A title-determined network behaviour for the mapping witness. -/
def fC7 : String → List Nat := fun u => if u = "Toy Story" then [42] else []

def netC7 : Nat → String → List Nat := fun _ u => fC7 u

def rowsC7 : List (Nat × String) := [(1, "Toy Story (1995)"), (2, "Nowhere Man")]

/-! ## Helper lemmas -/

/-- The retry loop performs at most `fuel` further attempts. -/
theorem handleLoop_attempts_le {α : Type} (transport : Nat → Outcome α) :
    ∀ (fuel att : Nat) (sl : List Nat),
      (handleLoop transport fuel att sl).attempts ≤ att + fuel := by
  intro fuel
  induction fuel with
  | zero => intro att sl; simp [handleLoop]
  | succ n ih =>
    intro att sl
    simp only [handleLoop]
    cases htr : transport att with
    | exn =>
      exact Nat.le_trans (ih (att + 1) (sl ++ [WAIT_TIME])) (by omega)
    | resp status ra b =>
      by_cases h429 : status = 429
      · subst h429
        exact Nat.le_trans (ih (att + 1) (sl ++ [ra.getD 1])) (by omega)
      · by_cases h200 : status = 200
        · simp [h429, h200]
        · simp [h429, h200]

/-- Looking up the key just stored finds the stored value. -/
theorem dictGet_dictSet_self {κ ν : Type} [DecidableEq κ] (k : κ) (v : ν) :
    ∀ d : List (κ × ν), dictGet (dictSet d k v) k = some v := by
  intro d
  induction d with
  | nil => simp [dictSet, dictGet]
  | cons p d ih =>
    by_cases h : p.1 = k
    · simp [dictSet, dictGet, h]
    · simp only [dictSet, if_neg h]
      simp only [dictGet] at ih ⊢
      rw [List.find?_cons_of_neg _ (by simp [h])]
      exact ih

/-- Storing one key leaves every other key's lookup unchanged. -/
theorem dictGet_dictSet_other {κ ν : Type} [DecidableEq κ] {k k' : κ}
    (hne : k' ≠ k) (v : ν) :
    ∀ d : List (κ × ν), dictGet (dictSet d k v) k' = dictGet d k' := by
  intro d
  induction d with
  | nil => simp [dictSet, dictGet, Ne.symm hne]
  | cons p d ih =>
    by_cases h : p.1 = k
    · simp only [dictSet, if_pos h, dictGet]
      rw [List.find?_cons_of_neg _ (by simp [Ne.symm hne]),
        List.find?_cons_of_neg _ (by simp [h, Ne.symm hne])]
    · simp only [dictSet, if_neg h]
      by_cases hp : p.1 = k'
      · simp [dictGet, hp]
      · simp only [dictGet] at ih ⊢
        rw [List.find?_cons_of_neg _ (by simp [hp]),
          List.find?_cons_of_neg _ (by simp [hp])]
        exact ih

/-- Storing an absent key grows the dict by exactly one entry. -/
theorem dictSet_length_of_get_none {κ ν : Type} [DecidableEq κ] (k : κ) (v : ν) :
    ∀ d : List (κ × ν), dictGet d k = none → (dictSet d k v).length = d.length + 1 := by
  intro d
  induction d with
  | nil => intro _; simp [dictSet]
  | cons p d ih =>
    intro h
    have hp : ¬p.1 = k := by
      intro hEq
      simp [dictGet, hEq] at h
    have hd : dictGet d k = none := by
      simp only [dictGet] at h ⊢
      rwa [List.find?_cons_of_neg _ (by simp [hp])] at h
    simp [dictSet, hp, ih hd]

/-! ## Claims about `_handle_request` -/

/-- C2: contrary to the never-raises policy, `_handle_request` can
propagate an exception: a 429 response whose `Retry-After` header is an
HTTP-date (RFC-permitted) makes the `int()` call raise `ValueError`, and a
negative integer header makes `time.sleep` raise `ValueError`; neither is
a `requests.RequestException`, so both escape the `except` clause and
reach the caller instead of degrading to the absence value. -/
theorem handle_request_uncaught_valueerror :
    (handle_requestH (fun _ =>
      OutcomeH.resp 429 (some "Fri, 31 Dec 1999 23:59:59 GMT") (0 : Nat))).ret =
      PyReturn.raised ∧
    (handle_requestH (fun _ => OutcomeH.resp 429 (some "-5") (0 : Nat))).ret =
      PyReturn.raised := by
  decide

/-- C3: on a first attempt answered HTTP 429, the client sleeps exactly the
parsed `Retry-After` duration (1 when the header is absent) before the next
attempt, and when that next attempt is answered HTTP 200 it returns its
parsed body after two attempts; the number of attempts never exceeds
`RETRIES` for any transport. -/
theorem handle_request_429_then_200 {α : Type} (transport : Nat → Outcome α)
    (ra : Option Nat) (b0 : α) (ra1 : Option Nat) (b1 : α)
    (h0 : transport 0 = Outcome.resp 429 ra b0)
    (h1 : transport 1 = Outcome.resp 200 ra1 b1) :
    handle_request transport = ⟨some b1, 2, [ra.getD 1]⟩ ∧
    ∀ transport2 : Nat → Outcome α, (handle_request transport2).attempts ≤ RETRIES := by
  constructor
  · simp [handle_request, RETRIES, handleLoop, h0, h1]
  · intro t2
    simpa [handle_request] using handleLoop_attempts_le t2 RETRIES 0 []

theorem handle_request_429_then_200_witness :
    handle_request (fun i => if i = 0 then Outcome.resp 429 (some 5) (0 : Nat)
      else Outcome.resp 200 none 7) = ⟨some 7, 2, [5]⟩ :=
  (handle_request_429_then_200
    (fun i => if i = 0 then Outcome.resp 429 (some 5) (0 : Nat)
      else Outcome.resp 200 none 7) (some 5) 0 none 7 rfl rfl).1

/-- C4: when every attempt raises a transport-level exception, the client
makes exactly `RETRIES` attempts, sleeps `WAIT_TIME` after each failed
attempt, and returns `None`. -/
theorem handle_request_transport_failure {α : Type} (transport : Nat → Outcome α)
    (h : ∀ i, transport i = Outcome.exn) :
    handle_request transport = ⟨none, RETRIES, List.replicate RETRIES WAIT_TIME⟩ := by
  simp [handle_request, RETRIES, WAIT_TIME, handleLoop, h 0, h 1, h 2,
    List.replicate]

theorem handle_request_transport_failure_witness :
    handle_request (fun _ => (Outcome.exn : Outcome Nat)) =
      ⟨none, RETRIES, List.replicate RETRIES WAIT_TIME⟩ :=
  handle_request_transport_failure _ (fun _ => rfl)

/-- C5: a first response whose status is neither 200 nor 429 makes the
client return `None` after exactly one attempt with no sleep, while a
first response with status 200 makes it return the parsed body after
exactly one attempt. -/
theorem handle_request_non_retry_status {α : Type} (transport : Nat → Outcome α)
    (s : Nat) (ra : Option Nat) (b : α) (h0 : transport 0 = Outcome.resp s ra b) :
    (s ≠ 429 → s ≠ 200 → handle_request transport = ⟨none, 1, []⟩) ∧
    (s = 200 → handle_request transport = ⟨some b, 1, []⟩) := by
  constructor
  · intro h429 h200
    simp [handle_request, RETRIES, handleLoop, h0, h429, h200]
  · intro h200
    subst h200
    simp [handle_request, RETRIES, handleLoop, h0]

theorem handle_request_non_retry_status_witness :
    handle_request (fun _ => (Outcome.resp 404 none 0 : Outcome Nat)) = ⟨none, 1, []⟩ ∧
    handle_request (fun _ => (Outcome.resp 200 none 5 : Outcome Nat)) = ⟨some 5, 1, []⟩ :=
  ⟨(handle_request_non_retry_status _ 404 none 0 rfl).1 (by decide) (by decide),
    (handle_request_non_retry_status _ 200 none 5 rfl).2 rfl⟩

/-- C10: storing the API key in a caller-supplied params dict sets the
`"api_key"` entry, leaves every other key's binding unchanged, and yields
a dict different from the caller's whenever it lacked that key. -/
theorem handle_request_params_spec (apiKey : String) (d : List (String × String)) :
    dictGet (handleRequestParams apiKey (some d)) "api_key" = some apiKey ∧
    (∀ k, k ≠ "api_key" → dictGet (handleRequestParams apiKey (some d)) k = dictGet d k) ∧
    (dictGet d "api_key" = none → handleRequestParams apiKey (some d) ≠ d) := by
  refine ⟨?_, ?_, ?_⟩
  · simpa [handleRequestParams] using dictGet_dictSet_self "api_key" apiKey d
  · intro k hk
    simpa [handleRequestParams] using dictGet_dictSet_other hk apiKey d
  · intro h heq
    have hlen := dictSet_length_of_get_none "api_key" apiKey d h
    simp only [handleRequestParams, Option.getD] at heq
    rw [heq] at hlen
    omega

theorem handle_request_params_witness :
    dictGet (handleRequestParams "KEY" (some [("query", "x")])) "api_key" = some "KEY" ∧
    dictGet (handleRequestParams "KEY" (some [("query", "x")])) "query" = some "x" ∧
    handleRequestParams "KEY" (some [("query", "x")]) ≠ [("query", "x")] := by
  have h := handle_request_params_spec "KEY" [("query", "x")]
  exact ⟨h.1, (h.2.1 "query" (by decide)).trans (by decide), h.2.2 (by decide)⟩

/-! ## Claims about `clean_data` -/

/-- C9: `clean_data` only deletes whole rows: its output is a sublist of
the input table (no row added, no retained row modified). -/
theorem clean_data_sublist {α : Type} (ratings : List (Row α)) (minR minU : Nat) :
    (clean_data ratings minR minU).Sublist ratings := by
  simp only [clean_data]
  exact (List.filter_sublist _).trans (List.filter_sublist _)

/-- Filtering by a per-user threshold keeps every row of a user that meets
the threshold, so that user's row count is unchanged by the filter. -/
theorem userCount_filter_stable {α : Type} (minU : Nat) (S1 : List (Row α)) (u : Nat)
    (hu : minU ≤ userCount S1 u) :
    userCount (S1.filter (fun x => minU ≤ userCount S1 x.userId)) u = userCount S1 u := by
  unfold userCount
  rw [List.countP_filter]
  apply List.countP_congr
  intro x _
  by_cases hxu : x.userId = u
  · simp only [userCount] at hu
    simp [hxu, hu]
  · simp [hxu]

/-- C1 (amended): after `clean_data` with thresholds 10/10, every user ID
appearing in the returned rows occurs in at least 10 of the returned rows,
and every movie ID appearing in the returned rows occurs in at least 10
rows of the *input* table.  (The movie threshold is checked before the user
filter removes rows, so it need not hold of the returned rows; see the
counterexample.) -/
theorem clean_data_retained_counts {α : Type} (ratings : List (Row α)) (r : Row α)
    (hr : r ∈ clean_data ratings 10 10) :
    10 ≤ userCount (clean_data ratings 10 10) r.userId ∧
    10 ≤ movieCount ratings r.movieId := by
  have hcd : clean_data ratings 10 10 =
      (ratings.filter (fun x => 10 ≤ movieCount ratings x.movieId)).filter
        (fun x => 10 ≤ userCount
          (ratings.filter (fun x => 10 ≤ movieCount ratings x.movieId)) x.userId) := rfl
  rw [hcd] at hr ⊢
  rcases List.mem_filter.mp hr with ⟨hr1, hp2⟩
  rcases List.mem_filter.mp hr1 with ⟨-, hp1⟩
  have hmovie : 10 ≤ movieCount ratings r.movieId := by simpa using hp1
  have huser : 10 ≤ userCount
      (ratings.filter (fun x => 10 ≤ movieCount ratings x.movieId)) r.userId := by
    simpa using hp2
  refine ⟨?_, hmovie⟩
  rw [userCount_filter_stable 10 _ _ huser]
  exact huser

theorem clean_data_retained_counts_witness :
    10 ≤ userCount (clean_data (List.replicate 10 (⟨1, 1, 0⟩ : Row Nat)) 10 10) 1 ∧
    10 ≤ movieCount (List.replicate 10 (⟨1, 1, 0⟩ : Row Nat)) 1 :=
  clean_data_retained_counts (List.replicate 10 ⟨1, 1, 0⟩) ⟨1, 1, 0⟩ (by decide)

/-- C1 (counterexample to the claim as stated): in table `rsC1`, movie 1
survives the movie filter (10 ratings in the input), but 9 of its raters
are dropped by the user filter, so movie 1 appears in the returned rows
while occurring in fewer than 10 of them. -/
theorem clean_data_movie_count_cex :
    (⟨1, 1, 0⟩ : Row Nat) ∈ clean_data rsC1 10 10 ∧
    movieCount (clean_data rsC1 10 10) 1 < 10 := by decide

/-! ## Helper lemmas for the `search_movie` cache -/

/-- Unfolding `search_movie` on a cache hit. -/
theorem search_movie_eq_hit {net : Nat → String → List Nat} {t : String}
    {s : SearchState} {p : String × List Nat}
    (h : s.cache.find? (fun q => q.1 == t) = some p) :
    search_movie net t s =
      (p.2, ⟨(t, p.2) :: s.cache.eraseP (fun q => q.1 == t), s.netCount⟩) := by
  unfold search_movie
  rw [h]

/-- Unfolding `search_movie` on a cache miss. -/
theorem search_movie_eq_miss {net : Nat → String → List Nat} {t : String}
    {s : SearchState} (h : s.cache.find? (fun q => q.1 == t) = none) :
    search_movie net t s =
      (net s.netCount t,
        ⟨if CACHE_SIZE < ((t, net s.netCount t) :: s.cache).length
            then ((t, net s.netCount t) :: s.cache).dropLast
            else (t, net s.netCount t) :: s.cache,
          s.netCount + 1⟩) := by
  unfold search_movie
  rw [h]

/-- A lookup in a cache whose earlier entries all have other keys hits the
distinguished entry. -/
theorem find?_key_decomp (t : String) (r : List Nat) :
    ∀ (pre post : List (String × List Nat)), (∀ p ∈ pre, p.1 ≠ t) →
      (pre ++ (t, r) :: post).find? (fun p => p.1 == t) = some (t, r) := by
  intro pre
  induction pre with
  | nil => intro post _; simp
  | cons q pre ih =>
    intro post h
    rw [List.cons_append,
      List.find?_cons_of_neg _ (by simp [h q (List.mem_cons_self q pre)])]
    exact ih post (fun p hp => h p (List.mem_cons_of_mem q hp))

/-- Erasing by a predicate that is false on the distinguished element keeps
that element, moves it no further from the front, and introduces no new
earlier elements. -/
theorem eraseP_decomp_keep {β : Type} (p : β → Bool) (x : β) (hx : p x = false) :
    ∀ (pre post : List β), ∃ pre' post',
      (pre ++ x :: post).eraseP p = pre' ++ x :: post' ∧
      pre'.length ≤ pre.length ∧ ∀ y ∈ pre', y ∈ pre := by
  intro pre
  induction pre with
  | nil =>
    intro post
    refine ⟨[], post.eraseP p, ?_, Nat.le_refl _, by simp⟩
    rw [List.nil_append, List.eraseP_cons_of_neg (by simp [hx]), List.nil_append]
  | cons q pre ih =>
    intro post
    by_cases hq : p q
    · refine ⟨pre, post, ?_, Nat.le_succ_of_le (Nat.le_refl _),
        fun y hy => List.mem_cons_of_mem q hy⟩
      rw [List.cons_append, List.eraseP_cons_of_pos hq]
    · obtain ⟨pre', post', heq, hlen, hmem⟩ := ih post
      refine ⟨q :: pre', post', ?_, Nat.succ_le_succ hlen, ?_⟩
      · rw [List.cons_append, List.eraseP_cons_of_neg hq, heq, List.cons_append]
      · intro y hy
        rcases List.mem_cons.mp hy with rfl | hy
        · exact List.mem_cons_self _ _
        · exact List.mem_cons_of_mem q (hmem y hy)

/-- A successful lookup means erasing by the same predicate removes exactly
one element. -/
theorem length_eraseP_of_find? {β : Type} {p : β → Bool} {l : List β}
    {x : β} (h : l.find? p = some x) : (l.eraseP p).length + 1 = l.length := by
  have hx := List.mem_of_find?_eq_some h
  have hp := List.find?_some h
  rw [List.length_eraseP, if_pos (List.any_eq_true.mpr ⟨x, hx, hp⟩)]
  have : 0 < l.length := List.length_pos.mpr (List.ne_nil_of_mem hx)
  omega

/-- One `search_movie` call places its title's entry at the front of the
cache and keeps the cache within capacity. -/
theorem search_movie_establishes_inv (net : Nat → String → List Nat)
    (t : String) (s : SearchState) (hlen : s.cache.length ≤ CACHE_SIZE) :
    CacheInv t (search_movie net t s).1 0 (search_movie net t s).2.cache ∧
    (search_movie net t s).2.cache.length ≤ CACHE_SIZE := by
  cases hfind : s.cache.find? (fun q => q.1 == t) with
  | some p =>
    rw [search_movie_eq_hit hfind]
    constructor
    · exact ⟨[], s.cache.eraseP (fun q => q.1 == t), rfl, by simp, Nat.le_refl 0⟩
    · have h3 := length_eraseP_of_find? hfind
      simp only [List.length_cons]
      omega
  | none =>
    rw [search_movie_eq_miss hfind]
    by_cases hbig : CACHE_SIZE < ((t, net s.netCount t) :: s.cache).length
    · have hne : s.cache ≠ [] := by
        intro h0
        rw [h0] at hbig
        simp [CACHE_SIZE] at hbig
      simp only [if_pos hbig]
      constructor
      · exact ⟨[], s.cache.dropLast,
          by rw [List.dropLast_cons_of_ne_nil hne, List.nil_append], by simp,
          Nat.le_refl 0⟩
      · simp only [List.length_dropLast, List.length_cons]
        omega
    · simp only [if_neg hbig]
      constructor
      · exact ⟨[], s.cache, rfl, by simp, Nat.le_refl 0⟩
      · simp only [List.length_cons] at hbig ⊢
        omega

/-- A `search_movie` call on a different title pushes the tracked entry at
most one position back, never past the eviction point while fewer than
`CACHE_SIZE` other calls happened, and keeps the cache within capacity. -/
theorem search_movie_step_inv (net : Nat → String → List Nat) (t : String)
    (r : List Nat) (k : Nat) (u : String) (s : SearchState)
    (hinv : CacheInv t r k s.cache) (hlen : s.cache.length ≤ CACHE_SIZE)
    (hu : u ≠ t) (hk : k + 2 ≤ CACHE_SIZE) :
    CacheInv t r (k + 1) (search_movie net u s).2.cache ∧
    (search_movie net u s).2.cache.length ≤ CACHE_SIZE := by
  obtain ⟨pre, post, hc, hpre, hplen⟩ := hinv
  have hxf : ((t, r).1 == u) = false := by simp [Ne.symm hu]
  cases hfind : s.cache.find? (fun q => q.1 == u) with
  | some p =>
    rw [search_movie_eq_hit hfind]
    obtain ⟨pre', post', heq, hlen', hmem⟩ :=
      eraseP_decomp_keep (fun q => q.1 == u) (t, r) hxf pre post
    constructor
    · refine ⟨(u, p.2) :: pre', post', ?_, ?_, ?_⟩
      · rw [hc, heq, List.cons_append]
      · intro q hq
        rcases List.mem_cons.mp hq with rfl | hq
        · exact hu
        · exact hpre q (hmem q hq)
      · simp only [List.length_cons]
        omega
    · have h3 := length_eraseP_of_find? hfind
      simp only [List.length_cons]
      omega
  | none =>
    rw [search_movie_eq_miss hfind]
    by_cases hbig : CACHE_SIZE < ((u, net s.netCount u) :: s.cache).length
    · simp only [if_pos hbig]
      have hclen : pre.length + 1 + post.length = s.cache.length := by
        rw [hc]
        simp [List.length_append]
        omega
      have hpost : post ≠ [] := by
        intro h0
        rw [h0] at hclen
        simp only [List.length_nil] at hclen
        simp only [List.length_cons] at hbig
        omega
      constructor
      · refine ⟨(u, net s.netCount u) :: pre, post.dropLast, ?_, ?_, ?_⟩
        · rw [hc, List.dropLast_cons_of_ne_nil (by simp),
            List.dropLast_append_cons, List.dropLast_cons_of_ne_nil hpost,
            List.cons_append]
        · intro q hq
          rcases List.mem_cons.mp hq with rfl | hq
          · exact hu
          · exact hpre q hq
        · simp only [List.length_cons]
          omega
      · simp only [List.length_dropLast, List.length_cons]
        omega
    · simp only [if_neg hbig]
      constructor
      · refine ⟨(u, net s.netCount u) :: pre, post, ?_, ?_, ?_⟩
        · rw [hc, List.cons_append]
        · intro q hq
          rcases List.mem_cons.mp hq with rfl | hq
          · exact hu
          · exact hpre q hq
        · simp only [List.length_cons]
          omega
      · simp only [List.length_cons] at hbig ⊢
        omega

/-- The tracked entry survives any run of calls on other titles, as long as
the run is shorter than the remaining cache capacity allows. -/
theorem runSearches_inv (net : Nat → String → List Nat) (t : String) (r : List Nat) :
    ∀ (ts : List String) (k : Nat) (s : SearchState),
      (∀ u ∈ ts, u ≠ t) → CacheInv t r k s.cache → s.cache.length ≤ CACHE_SIZE →
      k + ts.length + 1 ≤ CACHE_SIZE →
      CacheInv t r (k + ts.length) (runSearches net ts s).cache ∧
      (runSearches net ts s).cache.length ≤ CACHE_SIZE := by
  intro ts
  induction ts with
  | nil =>
    intro k s _ hinv hlen _
    simpa [runSearches] using ⟨hinv, hlen⟩
  | cons u ts ih =>
    intro k s hts hinv hlen hk
    simp only [List.length_cons] at hk
    have hstep := search_movie_step_inv net t r k u s hinv hlen
      (hts u (List.mem_cons_self u ts)) (by omega)
    have hrest := ih (k + 1) (search_movie net u s).2
      (fun v hv => hts v (List.mem_cons_of_mem u hv)) hstep.1 hstep.2 (by omega)
    have harith : k + (u :: ts).length = k + 1 + ts.length := by
      simp only [List.length_cons]
      omega
    constructor
    · rw [harith]
      simpa [runSearches] using hrest.1
    · simpa [runSearches] using hrest.2

/-- When the invariant holds, a `search_movie` call on the tracked title is
a pure cache hit: it returns the tracked value and issues no request. -/
theorem search_movie_hit_of_inv {net : Nat → String → List Nat} {t : String}
    {r : List Nat} {k : Nat} {s : SearchState} (hinv : CacheInv t r k s.cache) :
    search_movie net t s =
      (r, ⟨(t, r) :: s.cache.eraseP (fun q => q.1 == t), s.netCount⟩) := by
  obtain ⟨pre, post, hc, hpre, -⟩ := hinv
  have hfind : s.cache.find? (fun q => q.1 == t) = some (t, r) := by
    rw [hc]
    exact find?_key_decomp t r pre post hpre
  rw [search_movie_eq_hit hfind]

/-! ## Claims about `search_movie` memoization -/

/-- C8 (amended): two `search_movie` calls with the identical title return
the identical result and the second call issues no network request,
provided fewer than `CACHE_SIZE` (500) calls with other titles occur in
between — otherwise the entry can be evicted by the LRU policy; see the
counterexample. -/
theorem search_movie_memoized (net : Nat → String → List Nat) (t : String)
    (s : SearchState) (ts : List String)
    (hlen : s.cache.length ≤ CACHE_SIZE)
    (hts : ∀ u ∈ ts, u ≠ t)
    (hcount : ts.length < CACHE_SIZE) :
    (search_movie net t (runSearches net ts (search_movie net t s).2)).1 =
      (search_movie net t s).1 ∧
    (search_movie net t (runSearches net ts (search_movie net t s).2)).2.netCount =
      (runSearches net ts (search_movie net t s).2).netCount := by
  obtain ⟨hinv0, hlen0⟩ := search_movie_establishes_inv net t s hlen
  obtain ⟨hinv1, -⟩ :=
    runSearches_inv net t (search_movie net t s).1 ts 0 (search_movie net t s).2
      hts hinv0 hlen0 (by omega)
  rw [search_movie_hit_of_inv hinv1]
  exact ⟨rfl, rfl⟩

theorem search_movie_memoized_witness :
    (search_movie netC8 "x" (runSearches netC8 ["y"] (search_movie netC8 "x" ⟨[], 0⟩).2)).1 =
      (search_movie netC8 "x" ⟨[], 0⟩).1 ∧
    (search_movie netC8 "x" (runSearches netC8 ["y"] (search_movie netC8 "x" ⟨[], 0⟩).2)).2.netCount =
      (runSearches netC8 ["y"] (search_movie netC8 "x" ⟨[], 0⟩).2).netCount :=
  search_movie_memoized netC8 "x" ⟨[], 0⟩ ["y"] (by decide) (by decide) (by decide)

/-- Unfolding `search_movie` on a cache miss, with the state's fields
spelled out (the form used on concrete states). -/
theorem search_movie_eq_miss2 (net : Nat → String → List Nat) (t : String)
    (c : List (String × List Nat)) (m : Nat)
    (h : c.find? (fun q => q.1 == t) = none) :
    search_movie net t ⟨c, m⟩ =
      (net m t,
        ⟨if CACHE_SIZE < ((t, net m t) :: c).length
            then ((t, net m t) :: c).dropLast
            else (t, net m t) :: c,
          m + 1⟩) :=
  search_movie_eq_miss h

/-- The filler titles are pairwise distinct. -/
theorem mkTitle_inj {i j : Nat} (h : mkTitle i = mkTitle j) : i = j := by
  have hdata : List.replicate i 'b' = List.replicate j 'b' := congrArg String.data h
  simpa using congrArg List.length hdata

/-- No filler title is the probe title `"a"`. -/
theorem mkTitle_ne_a (i : Nat) : mkTitle i ≠ "a" := by
  intro h
  have hdata : List.replicate i 'b' = ['a'] := congrArg String.data h
  have hlen : i = 1 := by simpa using congrArg List.length hdata
  subst hlen
  simp at hdata

/-- The next filler title is never already cached. -/
theorem find?_preCache_none (n : Nat) :
    (preCache n).find? (fun p => p.1 == mkTitle n) = none := by
  rw [List.find?_eq_none]
  intro x hx
  simp only [preCache, List.mem_append, List.mem_map, List.mem_reverse,
    List.mem_range, List.mem_singleton] at hx
  rcases hx with ⟨i, hi, rfl⟩ | rfl
  · simp only [beq_iff_eq]
    intro h
    have := mkTitle_inj h
    omega
  · simp only [beq_iff_eq]
    exact (mkTitle_ne_a n).symm

theorem preCache_length (n : Nat) : (preCache n).length = n + 1 := by
  simp [preCache]

/-- One filler call below the capacity boundary: a plain miss. -/
theorem runStep_preCache (n : Nat) (hn : n + 1 < CACHE_SIZE) :
    (search_movie netC8 (mkTitle n) ⟨preCache n, n + 1⟩).2 =
      ⟨preCache (n + 1), n + 2⟩ := by
  rw [search_movie_eq_miss2 netC8 (mkTitle n) (preCache n) (n + 1)
    (find?_preCache_none n)]
  have hnet : netC8 (n + 1) (mkTitle n) = [n + 1] := rfl
  rw [hnet]
  have hcond : ¬CACHE_SIZE < ((mkTitle n, [n + 1]) :: preCache n).length := by
    rw [List.length_cons, preCache_length]
    omega
  rw [if_neg hcond]
  have hpc : preCache (n + 1) = (mkTitle n, [n + 1]) :: preCache n := by
    simp [preCache, List.range_succ]
  rw [hpc]

/-- The `CACHE_SIZE`-th filler call overflows the cache and evicts `"a"`. -/
theorem runStep_last :
    (search_movie netC8 (mkTitle 499) ⟨preCache 499, 500⟩).2 = ⟨bCache, 501⟩ := by
  rw [search_movie_eq_miss2 netC8 (mkTitle 499) (preCache 499) 500
    (find?_preCache_none 499)]
  have hnet : netC8 500 (mkTitle 499) = [500] := rfl
  rw [hnet]
  have hcond : CACHE_SIZE < ((mkTitle 499, [500]) :: preCache 499).length := by
    rw [List.length_cons, preCache_length]
    decide
  rw [if_pos hcond]
  have hsplit : (mkTitle 499, [500]) :: preCache 499 =
      ((mkTitle 499, [500]) ::
        ((List.range 499).reverse.map (fun i => (mkTitle i, [i + 1])))) ++ [("a", [0])] := by
    simp [preCache]
  rw [hsplit, List.dropLast_concat]
  have hb : bCache = (mkTitle 499, [500]) ::
      (List.range 499).reverse.map (fun i => (mkTitle i, [i + 1])) := by
    show (List.range 500).reverse.map (fun i => (mkTitle i, [i + 1])) = _
    rw [show (500 : Nat) = 499 + 1 from rfl, List.range_succ]
    simp
  rw [hb]

/-- Splitting off the last call of a call sequence. -/
theorem runSearches_append_single (net : Nat → String → List Nat) (l : List String)
    (t : String) (s : SearchState) :
    runSearches net (l ++ [t]) s = (search_movie net t (runSearches net l s)).2 := by
  simp [runSearches]

/-- Running all `CACHE_SIZE` filler titles from the cache holding only
`"a"` ends with `"a"` evicted and 500 further requests issued. -/
theorem run_titlesC8 :
    runSearches netC8 titlesC8 ⟨preCache 0, 1⟩ = ⟨bCache, 501⟩ := by
  have hpart : ∀ n, n < CACHE_SIZE →
      runSearches netC8 ((List.range n).map mkTitle) ⟨preCache 0, 1⟩ =
        ⟨preCache n, n + 1⟩ := by
    intro n
    induction n with
    | zero => intro _; simp [runSearches]
    | succ m ih =>
      intro hm
      rw [List.range_succ, List.map_append]
      simp only [List.map_cons, List.map_nil]
      rw [runSearches_append_single netC8 ((List.range m).map mkTitle)
        (mkTitle m) ⟨preCache 0, 1⟩, ih (by omega), runStep_preCache m (by omega)]
  have ht : titlesC8 = (List.range 499).map mkTitle ++ [mkTitle 499] := by
    show (List.range CACHE_SIZE).map mkTitle = _
    rw [show CACHE_SIZE = 499 + 1 from rfl, List.range_succ, List.map_append,
      List.map_cons, List.map_nil]
  rw [ht, runSearches_append_single netC8 ((List.range 499).map mkTitle)
    (mkTitle 499) ⟨preCache 0, 1⟩, hpart 499 (by decide), runStep_last]

/-- The probe title is genuinely gone after the filler run. -/
theorem find?_bCache_a : bCache.find? (fun p => p.1 == "a") = none := by
  rw [List.find?_eq_none]
  intro x hx
  simp only [bCache, List.mem_map, List.mem_reverse, List.mem_range] at hx
  obtain ⟨i, hi, rfl⟩ := hx
  simp only [beq_iff_eq]
  exact mkTitle_ne_a i

/-- C8 (counterexample to the claim as stated): querying `"a"`, then 500
distinct other titles, then `"a"` again makes the second `"a"` call issue a
network request and return a different result — the entry was evicted, so
two calls with the identical title within one process are *not* always
served from the cache. -/
theorem search_movie_eviction_cex :
    (search_movie netC8 "a" (runSearches netC8 titlesC8
        (search_movie netC8 "a" ⟨[], 0⟩).2)).1 ≠
      (search_movie netC8 "a" ⟨[], 0⟩).1 ∧
    (search_movie netC8 "a" (runSearches netC8 titlesC8
        (search_movie netC8 "a" ⟨[], 0⟩).2)).2.netCount =
      (runSearches netC8 titlesC8 (search_movie netC8 "a" ⟨[], 0⟩).2).netCount + 1 := by
  have h1 : (search_movie netC8 "a" ⟨[], 0⟩).2 = ⟨preCache 0, 1⟩ := rfl
  rw [h1, run_titlesC8]
  rw [search_movie_eq_miss2 netC8 "a" bCache 501 find?_bCache_a]
  constructor
  · have h0 : (search_movie netC8 "a" ⟨[], 0⟩).1 = [0] := rfl
    rw [h0]
    simp [netC8]
  · rfl

/-! ## Claims about `map_movielens_to_tmdb` -/

/-- C6: when the cache file exists, `map_movielens_to_tmdb` returns its
parsed contents verbatim (no merge with the input rows) and the search
state — in particular the count of network requests issued — is untouched. -/
theorem map_movielens_cache_file (m : List (Nat × Nat)) (net : Nat → String → List Nat)
    (rows : List (Nat × String)) (s : SearchState) :
    map_movielens_to_tmdb (some m) net rows s = (m, s) ∧
    (map_movielens_to_tmdb (some m) net rows s).2.netCount = s.netCount :=
  ⟨rfl, rfl⟩

/-- When the network behaviour is a function of the title alone, the cached
`search_movie` returns exactly that function's value and preserves cache
consistency. -/
theorem search_movie_pure (net : Nat → String → List Nat) (f : String → List Nat)
    (hf : ∀ n u, net n u = f u) (u : String) (s : SearchState)
    (hc : CacheConsistent f s) :
    (search_movie net u s).1 = f u ∧ CacheConsistent f (search_movie net u s).2 := by
  cases hfind : s.cache.find? (fun q => q.1 == u) with
  | some p =>
    rw [search_movie_eq_hit hfind]
    have hmem := List.mem_of_find?_eq_some hfind
    have hkey : p.1 = u := by simpa using List.find?_some hfind
    have hval : p.2 = f p.1 := hc p hmem
    constructor
    · rw [hval, hkey]
    · intro q hq
      rcases List.mem_cons.mp hq with rfl | hq
      · show p.2 = f u
        rw [hval, hkey]
      · exact hc q (List.mem_of_mem_eraseP hq)
  | none =>
    rw [search_movie_eq_miss hfind]
    constructor
    · exact hf s.netCount u
    · intro q hq
      have hq' : q ∈ (u, net s.netCount u) :: s.cache := by
        by_cases hbig : CACHE_SIZE < ((u, net s.netCount u) :: s.cache).length
        · rw [if_pos hbig] at hq
          exact List.dropLast_subset _ hq
        · rwa [if_neg hbig] at hq
      rcases List.mem_cons.mp hq' with rfl | hqq
      · exact hf s.netCount u
      · exact hc q hqq

/-- With a title-determined network, the mapping built by the row loop is
the purely functional fold over the rows. -/
theorem mapFold_pure (net : Nat → String → List Nat) (f : String → List Nat)
    (hf : ∀ n u, net n u = f u) :
    ∀ (rows : List (Nat × String)) (m : List (Nat × Nat)) (s : SearchState),
      CacheConsistent f s →
      (rows.foldl (mapStep net) (m, s)).1 =
        rows.foldl (fun m row => if (f (stripTitle row.2)).isEmpty then m
          else dictSet m row.1 ((f (stripTitle row.2)).headD 0)) m := by
  intro rows
  induction rows with
  | nil => intro m s _; rfl
  | cons row rows ih =>
    intro m s hc
    obtain ⟨hres, hcons⟩ := search_movie_pure net f hf (stripTitle row.2) s hc
    simp only [List.foldl_cons]
    have hstep0 : mapStep net (m, s) row =
        (if (search_movie net (stripTitle row.2) s).1.isEmpty then m
          else dictSet m row.1 ((search_movie net (stripTitle row.2) s).1.headD 0),
         (search_movie net (stripTitle row.2) s).2) := rfl
    rw [hstep0, hres]
    exact ih _ _ hcons

/-- Rows whose keys differ from `k` never change the binding of `k` in the
purely functional fold. -/
theorem pureFold_get_other (g : Nat × String → List Nat) (k : Nat) :
    ∀ (rows : List (Nat × String)) (m : List (Nat × Nat)),
      (∀ row ∈ rows, row.1 ≠ k) →
      dictGet (rows.foldl (fun m row => if (g row).isEmpty then m
        else dictSet m row.1 ((g row).headD 0)) m) k = dictGet m k := by
  intro rows
  induction rows with
  | nil => intro m _; rfl
  | cons row rows ih =>
    intro m h
    simp only [List.foldl_cons]
    rw [ih _ (fun r hr => h r (List.mem_cons_of_mem row hr))]
    by_cases hg : (g row).isEmpty
    · simp only [if_pos hg]
    · simp only [if_neg hg]
      exact dictGet_dictSet_other (Ne.symm (h row (List.mem_cons_self row rows)))
        ((g row).headD 0) m

/-- Pointwise description of the purely functional fold at a row of a
table with pairwise distinct keys. -/
theorem pureFold_get (g : Nat × String → List Nat) :
    ∀ (rows : List (Nat × String)) (m : List (Nat × Nat)) (row : Nat × String),
      row ∈ rows → (rows.map Prod.fst).Nodup → dictGet m row.1 = none →
      dictGet (rows.foldl (fun m row => if (g row).isEmpty then m
        else dictSet m row.1 ((g row).headD 0)) m) row.1 =
        if (g row).isEmpty then none else some ((g row).headD 0) := by
  intro rows
  induction rows with
  | nil => intro m row h; exact absurd h (List.not_mem_nil row)
  | cons r0 rows ih =>
    intro m row hmem hnd hm0
    simp only [List.map_cons, List.nodup_cons] at hnd
    obtain ⟨hr0, hnd2⟩ := hnd
    simp only [List.foldl_cons]
    rcases List.mem_cons.mp hmem with rfl | hmem2
    · have hrest : ∀ r ∈ rows, r.1 ≠ row.1 := by
        intro r hr hEq
        exact hr0 (hEq ▸ List.mem_map_of_mem Prod.fst hr)
      rw [pureFold_get_other g row.1 rows _ hrest]
      by_cases hg : (g row).isEmpty
      · simp only [if_pos hg]
        exact hm0
      · simp only [if_neg hg]
        exact dictGet_dictSet_self row.1 ((g row).headD 0) m
    · have hne : r0.1 ≠ row.1 := by
        intro hEq
        exact hr0 (hEq ▸ List.mem_map_of_mem Prod.fst hmem2)
      apply ih _ row hmem2 hnd2
      by_cases hg : (g r0).isEmpty
      · simp only [if_pos hg]
        exact hm0
      · simp only [if_neg hg]
        rw [dictGet_dictSet_other (Ne.symm hne) ((g r0).headD 0) m]
        exact hm0

/-- C7: with no cache file, the mapping built by `map_movielens_to_tmdb`
binds each row's `movieId` to the first candidate id returned by
`search_movie` for the row's title truncated at the first `" ("`, and binds
nothing for rows whose candidate list is empty.  The network behaviour is
assumed title-determined (`net n u = f u`) and row keys pairwise distinct,
so "the row's candidate list" is well defined. -/
theorem map_movielens_row_mapping (net : Nat → String → List Nat)
    (f : String → List Nat) (rows : List (Nat × String)) (s : SearchState)
    (hf : ∀ n u, net n u = f u) (hc : CacheConsistent f s)
    (hnd : (rows.map Prod.fst).Nodup) (row : Nat × String) (hrow : row ∈ rows) :
    dictGet (map_movielens_to_tmdb none net rows s).1 row.1 =
      if (f (stripTitle row.2)).isEmpty then none
      else some ((f (stripTitle row.2)).headD 0) := by
  show dictGet (rows.foldl (mapStep net) ([], s)).1 row.1 = _
  rw [mapFold_pure net f hf rows [] s hc]
  exact pureFold_get (fun row => f (stripTitle row.2)) rows [] row hrow hnd rfl

theorem map_movielens_row_mapping_witness :
    dictGet (map_movielens_to_tmdb none netC7 rowsC7 ⟨[], 0⟩).1 1 = some 42 ∧
    dictGet (map_movielens_to_tmdb none netC7 rowsC7 ⟨[], 0⟩).1 2 = none := by
  have h1 := map_movielens_row_mapping netC7 fC7 rowsC7 ⟨[], 0⟩ (fun _ _ => rfl)
    (by intro p hp; exact absurd hp (List.not_mem_nil p)) (by decide)
    (1, "Toy Story (1995)") (by decide)
  have h2 := map_movielens_row_mapping netC7 fC7 rowsC7 ⟨[], 0⟩ (fun _ _ => rfl)
    (by intro p hp; exact absurd hp (List.not_mem_nil p)) (by decide)
    (2, "Nowhere Man") (by decide)
  constructor
  · rw [h1]
    decide
  · rw [h2]
    decide

end MovieRec
